/-
Verification of the RAG pipeline of the LlmApiTester repository.

Shallow embedding of the Python sources:
  - document_processor.py : DocumentProcessor (PDF text cleaning and chunking)
    and VectorSearchEngine (TF-IDF ranked retrieval);
  - rag_client.py : RAGClient (query expansion, ambiguous-follow-up detection,
    continuity merge, context assembly, document info extraction);
  - routes.py : the chat endpoint's conversation-history handling.

Text is modelled as `List Char` (Python `str`), similarity scores as `ℚ`
(the ranking logic compares scores; exact float values are abstracted to an
arbitrary rational similarity vector).  The external TF-IDF vectorizer and
the remote LLM call are abstracted as parameters; every piece of control
flow around them is embedded faithfully.
-/
import Mathlib

namespace PilotRag

/-! ### Python string primitives -/

/-- Python `str.strip()`: remove leading and trailing whitespace. -/
def pyStrip (l : List Char) : List Char :=
  ((l.dropWhile Char.isWhitespace).reverse.dropWhile Char.isWhitespace).reverse

/-- Helper for `collapseWs`: the flag records whether we are inside a
whitespace run whose single replacement space was already emitted. -/
def collapseWsAux : Bool → List Char → List Char
  | _, [] => []
  | inRun, c :: cs =>
    if c.isWhitespace then
      if inRun then collapseWsAux true cs else ' ' :: collapseWsAux true cs
    else c :: collapseWsAux false cs

/-- Python `re.sub(r'\s+', ' ', text)`: replace each maximal whitespace run
by a single space (document_processor.py line 85). -/
def collapseWs (l : List Char) : List Char :=
  collapseWsAux false l

/-- Python regex `\w` on ASCII input: letters, digits, underscore. -/
def isWordChar (c : Char) : Bool :=
  c.isAlphanum || c = '_'

/-- Characters kept by `re.sub(r'[^\w\s\-\.\,\(\)\%\$\/]', '', text)`
(document_processor.py line 88). -/
def allowedChar (c : Char) : Bool :=
  isWordChar c || c.isWhitespace ||
    (['-', '.', ',', '(', ')', '%', '$', '/'] : List Char).contains c

/-- Python `text.split('\n')`: split on newline, keeping empty pieces
(always at least one piece). -/
def splitOnNl : List Char → List (List Char)
  | [] => [[]]
  | c :: cs =>
    if c = '\n' then [] :: splitOnNl cs
    else
      match splitOnNl cs with
      | [] => [[c]]
      | l :: ls => (c :: l) :: ls

/-! ### DocumentProcessor._clean_text (document_processor.py lines 82-94) -/

/-- `_clean_text`: collapse whitespace, drop disallowed characters, split on
newlines, keep stripped lines longer than 10 characters, join with spaces
and strip.  (After the whitespace collapse no newline survives, so the
line split always yields a single line — embedded faithfully anyway.) -/
def cleanText (t : List Char) : List Char :=
  let t1 := collapseWs t
  let t2 := t1.filter allowedChar
  let lines := (splitOnNl t2).map pyStrip
  let cleanLines := lines.filter (fun l => 10 < l.length)
  pyStrip (List.intercalate [' '] cleanLines)

/-! ### DocumentProcessor._split_text_into_chunks (lines 117-142) -/

/-- Python `text.rfind(' ', s, e)`: absolute index of the last space in
`t[s:e]`, `none` when there is no space there (`-1` in Python). -/
def rfindSpace (t : List Char) (s e : Nat) : Option Nat :=
  let window := (t.drop s).take (e - s)
  match window.reverse.findIdx? (fun c => c == ' ') with
  | none => none
  | some j => some (s + (window.length - 1 - j))

/-- One fuelled unfolding of the `while start < len(text)` loop of
`_split_text_into_chunks`.  `size` is `self.chunk_size`, `ov` is
`self.chunk_overlap`.  Python's `start = chunk_end - overlap; if start <= 0:
start = chunk_end` is rendered in `Nat` by the test `ce ≤ ov`.  Returns
`none` when the fuel runs out before the loop exits. -/
def splitGo (size ov : Nat) (t : List Char) : Nat → Nat → List (List Char) → Option (List (List Char))
  | 0, _, _ => none
  | fuel + 1, start, acc =>
    if start < t.length then
      if start + size ≥ t.length then
        some (acc ++ [t.drop start])
      else
        let ce :=
          match rfindSpace t start (start + size) with
          | none => start + size
          | some i => if i ≤ start then start + size else i
        splitGo size ov t fuel (if ce ≤ ov then ce else ce - ov)
          (acc ++ [(t.drop start).take (ce - start)])
    else some acc

/-- `_split_text_into_chunks(text)`, fuelled. -/
def splitTextIntoChunks (size ov fuel : Nat) (t : List Char) : Option (List (List Char)) :=
  splitGo size ov t fuel 0 []

/-! ### DocumentProcessor._extract_text_from_pdf / process_pdf (lines 21-80, 96-115) -/

/-- `_extract_text_from_pdf`: pages are numbered from 1; a page is kept when
its RAW extracted text is nonempty after strip (line 72), and the stored
text is the cleaned text. -/
def extractTextFromPdf (pages : List (List Char)) : List (Nat × List Char) :=
  (List.enumFrom 1 pages).filterMap
    (fun p => if (pyStrip p.2).isEmpty then none else some (p.1, cleanText p.2))

/-- `_create_chunks`, restricted to one page: chunk the page text and keep
the chunks whose stripped length exceeds 50 (line 105), paired with the
page number.  Propagates chunker non-termination as `none`. -/
def storedChunksOfPage (size ov fuel : Nat) (pg : Nat × List Char) : Option (List (Nat × List Char)) :=
  (splitTextIntoChunks size ov fuel pg.2).map
    (fun cs => (cs.filter (fun c => 50 < (pyStrip c).length)).map (fun c => (pg.1, pyStrip c)))

/-- `_create_chunks` over all extracted pages, in page order. -/
def createChunks (size ov fuel : Nat) (extracted : List (Nat × List Char)) : Option (List (Nat × List Char)) :=
  (extracted.mapM (storedChunksOfPage size ov fuel)).map List.flatten

/-- `process_pdf` outcome: on success (`some`) the document is marked
processed (`document.processed = True`) and the result records
`(document.page_count, number of stored chunks)`; `page_count` is
`len(text_chunks)` (line 45). Uses the source's constants
`chunk_size = 1000`, `chunk_overlap = 200`. -/
def processPdf (fuel : Nat) (pages : List (List Char)) : Option (Nat × Nat) :=
  let ex := extractTextFromPdf pages
  (createChunks 1000 200 fuel ex).map (fun cs => (ex.length, cs.length))

/-! ### VectorSearchEngine (document_processor.py lines 144-220)

The TF-IDF vectorization (sklearn) is abstracted: a query against a built
index yields some vector `sims : List ℚ` of cosine similarities, one per
indexed chunk.  The ranking logic of `search` — `np.argsort(similarities)
[::-1][:top_k]` followed by the `> 0.1` floor — is embedded exactly.
`np.argsort` promises only an ascending arrangement of the scores: with
its default `kind='quicksort'` the order of equal keys is unspecified
above the small-array regime in which numpy falls back to insertion sort
(where it is stable).  The model below uses a stable insertion sort as one
representative tie resolution.  Accordingly, the universal theorems proved
about `searchCore` assert only tie-order-INVARIANT properties (result
count, the similarity floor, descending sortedness), which hold under any
tie resolution; concrete tie-order facts are asserted only for similarity
vectors small enough to fall in numpy's insertion-sort regime, where the
stable model coincides with numpy exactly. -/

/-- Insert an `(index, score)` pair into an ascending-by-score list,
placing it before the first element of greater-or-equal score (a stable
insertion — one representative of numpy's unspecified tie handling, exact
for arrays in its insertion-sort regime). -/
def insertAsc (p : Nat × ℚ) : List (Nat × ℚ) → List (Nat × ℚ)
  | [] => [p]
  | q :: l => if p.2 ≤ q.2 then p :: q :: l else q :: insertAsc p l

/-- Ascending-by-score sort of `(index, score)` pairs (stable; see the
section comment for how this relates to `np.argsort`). -/
def sortAsc : List (Nat × ℚ) → List (Nat × ℚ)
  | [] => []
  | p :: l => insertAsc p (sortAsc l)

/-- `np.argsort(similarities)[::-1]`, keeping the score with each index. -/
def argsortDesc (sims : List ℚ) : List (Nat × ℚ) :=
  (sortAsc sims.enum).reverse

/-- The ranking core of `VectorSearchEngine.search` (lines 206-213): take
the `top_k` indices of the descending argsort, then keep those whose
similarity is `> 0.1` (strict, line 210).  Results are `(chunk index,
score)` pairs — `self.chunks[idx]` is identified by its index. -/
def searchCore (sims : List ℚ) (k : Nat) : List (Nat × ℚ) :=
  ((argsortDesc sims).take k).filter (fun p => mkRat 1 10 < p.2)

/-- The mutable state of `VectorSearchEngine`: `vectorizer` is `None` until
an index is built (the fitted vectorizer is abstracted as the list of texts
it was fitted on), `chunks` is the indexed chunk list. -/
structure Engine where
  vectorizer : Option (List String)
  chunks : List String

/-- `VectorSearchEngine.__init__` (lines 147-150). -/
def initEngine : Engine :=
  { vectorizer := none, chunks := [] }

/-- `refresh_index` (lines 161-190): store the new chunk list; on an empty
chunk set return early without touching the vectorizer, otherwise fit a
fresh vectorizer on the texts. -/
def refreshIndex (e : Engine) (newChunks : List String) : Engine :=
  if newChunks.isEmpty then { e with chunks := newChunks }
  else { vectorizer := some newChunks, chunks := newChunks }

/-- `search` with its not-initialized guard (lines 194-196): an unbuilt
vectorizer or an empty chunk list short-circuits to `[]`. -/
def engineSearch (e : Engine) (sims : List ℚ) (k : Nat) : List (Nat × ℚ) :=
  if e.vectorizer.isNone || e.chunks.isEmpty then [] else searchCore sims k

/-! ### RAGClient (rag_client.py) -/

/-- The fields of a `DocumentChunk` consumed by the RAG side (and the shape
duck-typed by the continuity pseudo-chunks, lines 324-328). -/
structure ChunkRec where
  document_id : Nat
  page_number : Nat
  text_content : String
deriving DecidableEq

/-- The fields of a `Document` consumed by context assembly and document
info extraction. -/
structure DocumentRec where
  id : Nat
  original_filename : String
deriving DecidableEq

/-- The `ambiguous_patterns` list of `_is_ambiguous_followup` (lines
302-306). -/
def ambiguousPatterns : List String :=
  ["tell me more", "more", "what else", "continue", "go on", "and?",
   "explain", "details", "elaborate", "expand", "further",
   "what about", "how about", "also", "additionally"]

/-- Python `message.lower().strip()`. -/
def lowerStrip (s : String) : List Char :=
  pyStrip (s.data.map Char.toLower)

/-- `_is_ambiguous_followup` (lines 297-312): trimmed lowercased length
below 15, or some fixed phrase occurs as a substring. -/
def isAmbiguousFollowup (message : String) : Bool :=
  let ml := lowerStrip message
  decide (ml.length < 15) || ambiguousPatterns.any (fun p => decide (p.data <:+: ml))

/-- The pseudo-chunk built for a carried-over text (lines 324-329):
`document_id = 1`, `page_number = 1`, at the fixed score `0.5`. -/
def pseudoChunk (t : String) : ChunkRec × ℚ :=
  (⟨1, 1, t⟩, mkRat 1 2)

/-- `_merge_with_previous_context` (lines 314-335): when fewer than 3
current results and some previous chunk texts exist, append up to 2 of
them as pseudo-chunks with `document_id = 1`, `page_number = 1` and score
`0.5`; otherwise return the current results unchanged. -/
def mergeWithPreviousContext (cur : List (ChunkRec × ℚ)) (prev : List String) :
    List (ChunkRec × ℚ) :=
  if cur.length < 3 ∧ prev ≠ [] then
    cur ++ (prev.take 2).map pseudoChunk
  else cur

/-- The gate in `chat_with_rag` (lines 59-61): the merge runs only when the
message is an ambiguous follow-up and `last_chunks_used` is non-falsy. -/
def applyContextMerge (message : String) (lastChunksUsed : List String)
    (cur : List (ChunkRec × ℚ)) : List (ChunkRec × ℚ) :=
  if isAmbiguousFollowup message && !lastChunksUsed.isEmpty then
    mergeWithPreviousContext cur lastChunksUsed
  else cur

/-- `_build_context` (lines 96-117), as the structured list of source
entries `(display name, page number, text, score)` that the delimited
context string lists in order; a chunk whose owning document is absent is
silently skipped (lines 106-108).  `docs` models `Document.query.get`. -/
def buildContextEntries (docs : Nat → Option DocumentRec)
    (chunks : List (ChunkRec × ℚ)) : List (String × Nat × String × ℚ) :=
  chunks.filterMap
    (fun p => (docs p.1.document_id).map
      (fun d => (d.original_filename, p.1.page_number, p.1.text_content, p.2)))

/-- The loop of `_extract_document_info` (lines 164-180) with its `seen`
set of document ids; a chunk with an unseen id whose document is absent is
skipped without marking the id as seen. -/
def extractDocumentInfoGo (docs : Nat → Option DocumentRec) :
    List (ChunkRec × ℚ) → List Nat → List (Nat × String × ℚ)
  | [], _ => []
  | p :: rest, seen =>
    if p.1.document_id ∈ seen then extractDocumentInfoGo docs rest seen
    else
      match docs p.1.document_id with
      | none => extractDocumentInfoGo docs rest seen
      | some d => (d.id, d.original_filename, p.2) ::
          extractDocumentInfoGo docs rest (p.1.document_id :: seen)

/-- `_extract_document_info`: document summaries `(id, display name,
relevance score)`, deduplicated by document id, first occurrence wins. -/
def extractDocumentInfo (docs : Nat → Option DocumentRec)
    (chunks : List (ChunkRec × ℚ)) : List (Nat × String × ℚ) :=
  extractDocumentInfoGo docs chunks []

/-! ### Query expansion (_build_enhanced_search_query, lines 269-295) -/

/-- A conversation message dict with its `role` and `content` entries. -/
structure Msg where
  role : String
  content : String
deriving DecidableEq

/-- The common-word exclusion list of `_build_enhanced_search_query`
(line 284). -/
def stopWords : List String :=
  ["what", "when", "where", "how", "why", "which", "that", "this", "with",
   "from", "they", "have", "been", "will", "would", "could", "should"]

/-- Helper for `pyWords`: accumulate the current word (reversed). -/
def pyWordsAux : List Char → List Char → List (List Char)
  | [], cur => if cur.isEmpty then [] else [cur.reverse]
  | c :: cs, cur =>
    if c.isWhitespace then
      if cur.isEmpty then pyWordsAux cs [] else cur.reverse :: pyWordsAux cs []
    else pyWordsAux cs (c :: cur)

/-- Python `str.split()` with no argument: split on whitespace runs,
producing no empty words. -/
def pyWords (l : List Char) : List (List Char) :=
  pyWordsAux l []

/-- Python `w.strip('.,!?')`: remove the given characters from both ends. -/
def pyStripChars (sep : List Char) (l : List Char) : List Char :=
  ((l.dropWhile sep.contains).reverse.dropWhile sep.contains).reverse

/-- The per-message term extraction of `_build_enhanced_search_query`
(lines 282-284): words longer than 3 characters whose lowercase form is
not a common word, then stripped of `.,!?`. -/
def importantWords (content : String) : List String :=
  ((pyWords content.data).filter
      (fun w => decide (3 < w.length) &&
        !(stopWords.contains (String.mk (w.map Char.toLower))))).map
    (fun w => String.mk (pyStripChars ['.', ',', '!', '?'] w))

/-- `_build_enhanced_search_query`: with fewer than 2 history entries
return the message unchanged; otherwise gather up to 3 important terms
from each user message of the last 4 entries, deduplicate, keep at most 5
and append them.  (Python materializes the deduplicated terms via `set`,
whose iteration order is implementation-defined; the model keeps first
occurrences.  The claims checked here only exercise the short-history
path, which is exact.) -/
def buildEnhancedSearchQuery (currentMessage : String) (hist : List Msg) : String :=
  if hist.length < 2 then currentMessage
  else
    let recent := if 4 ≤ hist.length then hist.drop (hist.length - 4) else hist
    let contextTerms :=
      (recent.map (fun m =>
        if m.role == "user" then (importantWords m.content).take 3 else [])).flatten
    if contextTerms.isEmpty then currentMessage
    else currentMessage ++ " " ++ String.intercalate " " (contextTerms.eraseDups.take 5)

/-! ### The chat turn (routes.py lines 148-238, rag_client.py lines 41-94)

`chat_with_rag` wraps its whole body in try/except: any exception raised
while generating (transport error, timeout from `requests.post`,
`raise_for_status` on a non-2xx reply, a missing key in the response JSON)
is caught at line 89 and turned into `{'success': False, ...}`.  The
remote call is abstracted as an `Except` outcome. -/

/-- The success flag and content that `chat_with_rag` hands back to the
route, as a function of the generation outcome. -/
def chatWithRagOutcome (genResult : Except String String) : Bool × String :=
  match genResult with
  | .ok c => (true, c)
  | .error e => (false, "Failed to generate response: " ++ e)

/-- The `/chat` route handler's conversation bookkeeping (routes.py lines
185-234): tentatively append the user turn, truncate to the last 20
entries, run RAG; on success append the assistant turn and commit both
rows to the persistent log, on failure pop the trailing user turn and
commit nothing.  Returns `(success, in-memory history, persistent log)`. -/
def chatHandler (hist log : List Msg) (message : String)
    (genResult : Except String String) : Bool × List Msg × List Msg :=
  let h1 := hist ++ [⟨"user", message⟩]
  let h2 := if 20 < h1.length then h1.drop (h1.length - 20) else h1
  let r := chatWithRagOutcome genResult
  if r.1 then
    (true, h2 ++ [⟨"assistant", r.2⟩], log ++ [⟨"user", message⟩, ⟨"assistant", r.2⟩])
  else
    let h3 :=
      match h2.getLast? with
      | some lastMsg => if lastMsg.role == "user" then h2.dropLast else h2
      | none => h2
    (false, h3, log)

/-! ## Ranking lemmas

These lemmas characterize the model's sort (`lexLt` describes the stable
representative tie resolution, which is a property of the model, not a
numpy guarantee); the claim theorems draw only tie-order-invariant
consequences from them, plus concrete facts in the insertion-sort regime. -/

/-- Strict lexicographic order on `(index, score)` pairs: smaller score
first, equal scores ordered by original index. -/
def lexLt (a b : Nat × ℚ) : Prop :=
  a.2 < b.2 ∨ (a.2 = b.2 ∧ a.1 < b.1)

theorem mem_insertAsc {x p : Nat × ℚ} {l : List (Nat × ℚ)} :
    x ∈ insertAsc p l ↔ x = p ∨ x ∈ l := by
  induction l with
  | nil => simp [insertAsc]
  | cons q l ih =>
    by_cases h : p.2 ≤ q.2
    · simp [insertAsc, h]
    · simp only [insertAsc, if_neg h, List.mem_cons, ih]
      tauto

theorem pairwise_insertAsc {p : Nat × ℚ} {l : List (Nat × ℚ)}
    (hs : l.Pairwise lexLt) (hidx : ∀ q ∈ l, p.1 < q.1) :
    (insertAsc p l).Pairwise lexLt := by
  induction l with
  | nil => simp [insertAsc, List.Pairwise.nil]
  | cons q l ih =>
    rcases List.pairwise_cons.mp hs with ⟨hq, hl⟩
    by_cases h : p.2 ≤ q.2
    · rw [insertAsc, if_pos h]
      refine List.pairwise_cons.mpr ⟨?_, hs⟩
      intro r hr
      rcases List.mem_cons.mp hr with rfl | hrl
      · rcases lt_or_eq_of_le h with hlt | heq
        · exact Or.inl hlt
        · exact Or.inr ⟨heq, hidx r (List.mem_cons_self _ _)⟩
      · have hqr := hq r hrl
        rcases hqr with hlt | ⟨heq, _⟩
        · exact Or.inl (lt_of_le_of_lt h hlt)
        · rcases lt_or_eq_of_le h with hlt' | heq'
          · exact Or.inl (heq ▸ hlt')
          · exact Or.inr ⟨heq'.trans heq, hidx r (List.mem_cons_of_mem _ hrl)⟩
    · rw [insertAsc, if_neg h]
      refine List.pairwise_cons.mpr ⟨?_, ih hl (fun r hr => hidx r (List.mem_cons_of_mem _ hr))⟩
      intro r hr
      rcases mem_insertAsc.mp hr with rfl | hrl
      · exact Or.inl (lt_of_not_le h)
      · exact hq r hrl

theorem mem_sortAsc {x : Nat × ℚ} {l : List (Nat × ℚ)} :
    x ∈ sortAsc l ↔ x ∈ l := by
  induction l with
  | nil => simp [sortAsc]
  | cons p l ih => simp [sortAsc, mem_insertAsc, ih]

theorem pairwise_sortAsc {l : List (Nat × ℚ)}
    (h : l.Pairwise (fun a b => a.1 < b.1)) : (sortAsc l).Pairwise lexLt := by
  induction l with
  | nil => exact List.Pairwise.nil
  | cons p l ih =>
    rcases List.pairwise_cons.mp h with ⟨hp, hl⟩
    exact pairwise_insertAsc (ih hl) (fun q hq => hp q (mem_sortAsc.mp hq))

theorem pairwise_fst_enumFrom {α : Type} (n : Nat) (l : List α) :
    (List.enumFrom n l).Pairwise (fun a b => a.1 < b.1) := by
  induction l generalizing n with
  | nil => exact List.Pairwise.nil
  | cons x l ih =>
    refine List.pairwise_cons.mpr ⟨?_, ih (n + 1)⟩
    intro q hq
    exact lt_of_lt_of_le (Nat.lt_succ_self n) (List.mem_enumFrom hq).1

theorem pairwise_argsortDesc (sims : List ℚ) :
    (argsortDesc sims).Pairwise (fun a b => lexLt b a) := by
  rw [argsortDesc, List.pairwise_reverse]
  exact pairwise_sortAsc (List.enum_eq_enumFrom (l := sims) ▸ pairwise_fst_enumFrom 0 sims)

theorem pairwise_searchCore (sims : List ℚ) (k : Nat) :
    (searchCore sims k).Pairwise (fun a b => lexLt b a) :=
  List.Pairwise.sublist ((List.filter_sublist _).trans (List.take_sublist k _))
    (pairwise_argsortDesc sims)

/-! ## Claim theorems: retrieval (C1, C3, C9) -/

/-- C1 counterexample: on an index whose single chunk has cosine similarity
exactly 0.1 to the query, `search(q, 1)` returns no results — the chunk
with similarity exactly 0.1 IS excluded, contradicting the claim that only
results strictly below the 0.1 floor are excluded (the code's test at line
210 is strict `> 0.1`). -/
theorem search_floor_counterexample :
    searchCore [mkRat 1 10] 1 = [] ∧ (0, mkRat 1 10) ∉ searchCore [mkRat 1 10] 1 := by
  constructor <;> decide

/-- C1 (amended): for every similarity vector and every `k`, search returns
at most `k` results, every returned result has similarity strictly greater
than 0.1, and the only results excluded from the ranked top-`k` are those
with similarity ≤ 0.1 (every top-`k` candidate above the floor is kept). -/
theorem search_topk_floor (sims : List ℚ) (k : Nat) :
    (searchCore sims k).length ≤ k
    ∧ (∀ p ∈ searchCore sims k, mkRat 1 10 < p.2)
    ∧ (∀ p ∈ (argsortDesc sims).take k, mkRat 1 10 < p.2 → p ∈ searchCore sims k) := by
  refine ⟨?_, ?_, ?_⟩
  · exact le_trans (List.filter_sublist _).length_le
      (by rw [List.length_take]; exact min_le_left _ _)
  · intro p hp
    have h := List.mem_filter.mp hp
    simpa using h.2
  · intro p hp hf
    exact List.mem_filter.mpr ⟨hp, by simpa using hf⟩

/-- Witness for C1 at the concrete similarity vector `[1/2, 1/5]`, `k = 2`:
the result `(0, 1/2)` is returned and lies above the floor. -/
theorem search_topk_floor_witness :
    (searchCore [mkRat 1 2, mkRat 1 5] 2).length ≤ 2
    ∧ mkRat 1 10 < ((0, mkRat 1 2) : Nat × ℚ).2
    ∧ (0, mkRat 1 2) ∈ searchCore [mkRat 1 2, mkRat 1 5] 2 :=
  ⟨(search_topk_floor [mkRat 1 2, mkRat 1 5] 2).1,
   (search_topk_floor [mkRat 1 2, mkRat 1 5] 2).2.1 (0, mkRat 1 2) (by decide),
   (search_topk_floor [mkRat 1 2, mkRat 1 5] 2).2.2 (0, mkRat 1 2) (by decide) (by decide)⟩

/-- C3 counterexample: on a two-chunk index where both chunks have
similarity 1/2 to the query, `search(q, 2)` returns chunk 1 before chunk 0
— the ascending argsort is reversed by `[::-1]`, so the tied results come
out in REVERSE original index order, contradicting stable original-order
tie-breaking, which would return index 0 first.  (A 2-element array lies
in numpy's insertion-sort regime, where its argsort is stable, so this
trace is exact.) -/
theorem search_tie_counterexample :
    searchCore [mkRat 1 2, mkRat 1 2] 2 = [(1, mkRat 1 2), (0, mkRat 1 2)]
    ∧ (searchCore [mkRat 1 2, mkRat 1 2] 2).map Prod.fst ≠ [0, 1] := by
  constructor <;> decide

/-- C3 (amended): the result list of search is sorted descending by
cosine similarity; equal-similarity results are NOT guaranteed to appear
in their original chunk-index order — numpy leaves the argsort tie order
unspecified in general, and where it does specify it (the insertion-sort
regime, e.g. the two-chunk tie below) the reversal puts tied results in
reverse index order.  The sortedness conjunct is tie-order-invariant:
`searchCore` filters a prefix of a reversed ascending sort, so it is
descending under any tie resolution the sort could produce. -/
theorem search_sorted_desc (sims : List ℚ) (k : Nat) :
    (searchCore sims k).Pairwise (fun a b => b.2 ≤ a.2)
    ∧ searchCore [mkRat 1 2, mkRat 1 2] 2 = [(1, mkRat 1 2), (0, mkRat 1 2)] := by
  refine ⟨?_, by decide⟩
  exact (pairwise_searchCore sims k).imp
    (fun h => h.elim le_of_lt (fun h => le_of_eq h.1))

/-- C9: searching an engine that was never built, or whose last rebuild saw
an empty chunk set, returns the empty list (no error path exists: the
guard at lines 194-196 short-circuits). -/
theorem search_empty_index :
    (∀ (sims : List ℚ) (k : Nat), engineSearch initEngine sims k = [])
    ∧ (∀ (e : Engine) (sims : List ℚ) (k : Nat), engineSearch (refreshIndex e []) sims k = []) := by
  constructor
  · intro sims k; rfl
  · intro e sims k
    simp [engineSearch, refreshIndex]

/-! ## Claim C2: chunker termination

The loop guard `if start <= 0: start = chunk_end` (lines 139-140) only
fires when the new start underflows to (or below) zero.  When `start` is
already positive and the last space in the window lies within `overlap`
characters after `start`, the loop revisits the same `start` forever.
`badText` exhibits this: 300 `'a'`s, one space at index 300, then 1000
`'b'`s.  The first iteration cuts at the space (index 300) and sets
`start = 100`; every following iteration again finds the space at 300 as
the only word boundary in its window, cuts there, and resets
`start = 300 - 200 = 100`. -/

/-- A 1301-character text on which `_split_text_into_chunks` loops
forever: `'a' * 300 + ' ' + 'b' * 1000`. -/
def badText : List Char :=
  List.replicate 300 'a' ++ ' ' :: List.replicate 1000 'b'

set_option maxRecDepth 10000 in
theorem badText_length : badText.length = 1301 := by
  simp [badText]

set_option maxRecDepth 40000 in
theorem splitGo_badText_step0 (fuel : Nat) (acc : List (List Char)) :
    splitGo 1000 200 badText (fuel + 1) 0 acc
      = splitGo 1000 200 badText fuel 100 (acc ++ [(badText.drop 0).take 300]) := rfl

set_option maxRecDepth 40000 in
theorem splitGo_badText_step100 (fuel : Nat) (acc : List (List Char)) :
    splitGo 1000 200 badText (fuel + 1) 100 acc
      = splitGo 1000 200 badText fuel 100 (acc ++ [(badText.drop 100).take 200]) := rfl

theorem splitGo_badText_none : ∀ (fuel : Nat) (acc : List (List Char)),
    splitGo 1000 200 badText fuel 100 acc = none := by
  intro fuel
  induction fuel with
  | zero => intro acc; rfl
  | succ n ih => intro acc; rw [splitGo_badText_step100]; exact ih _

/-- C2: the claim states `chunk()` terminates on all input; the code does
not.  On `badText`, with the source's `chunk_size = 1000` and
`chunk_overlap = 200`, the fuelled embedding of the loop exhausts ANY
amount of fuel (the loop state recurs at `start = 100`), i.e. the loop
runs forever.  The coverage half of the claim is moot on such input.  This
contradicts the code's own intent (`# Ensure we make progress`, line 138)
and the spec, so it is a code bug: the progress guard `start <= 0`
triggers only when the new start underflows to zero or below, not whenever
no forward progress is made. -/
theorem chunk_nontermination :
    ∀ fuel : Nat, splitTextIntoChunks 1000 200 fuel badText = none := by
  intro fuel
  cases fuel with
  | zero => rfl
  | succ n =>
    rw [splitTextIntoChunks, splitGo_badText_step0]
    exact splitGo_badText_none n _

/-! ## Claim C4: the 2-page PDF scenario -/

/-- The scenario input: page 1 reads "Replace brake pads every 20,000
miles" (37 characters), page 2 holds only filler lines shorter than 10
characters each ("abc def" and "gh ij"). -/
def scenarioPages : List (List Char) :=
  ["Replace brake pads every 20,000 miles".data, "abc def\ngh ij".data]

set_option maxRecDepth 10000 in
/-- C4 counterexample: processing the scenario PDF does NOT yield one
stored chunk and page_count 1.  Two slips in the claim: (1) the 37-char
page-1 chunk fails the `> 50` storage filter (line 105), so NO chunk is
stored; (2) a page enters `text_chunks` — and hence `page_count` — as
soon as its raw extracted text is nonempty (line 72), regardless of the
short-line filter, so page 2 is counted and page_count is 2.  (The
short-line filter itself never drops page 2's text either: the `\s+`
collapse at line 85 removes every newline before the `split('\n')` at
line 91, so the whole 13-char page is one "line" longer than 10.) -/
theorem process_pdf_scenario_counterexample :
    processPdf 100 scenarioPages ≠ some (1, 1) := by decide

set_option maxRecDepth 10000 in
/-- C4 (amended): processing the scenario PDF stores exactly zero chunks,
marks the document processed, and sets page_count = 2 (pages with
nonempty raw text, not pages yielding ≥10-char cleaned content). -/
theorem process_pdf_scenario :
    processPdf 100 scenarioPages = some (2, 0)
    ∧ (processPdf 100 scenarioPages).isSome = true := by
  constructor <;> decide


/-! ## Claim C5: generation failure handling -/

/-- C5: whenever the generation step fails (remote call error, timeout,
malformed response — all surfacing as an exception caught by
`chat_with_rag`, abstracted here as `Except.error e`), the chat turn
fails as a whole: the handler reports `success = false`, the tentatively
appended user turn is removed from the in-memory history (the final
history is a suffix of the pre-turn history: the original history when it
held fewer than 20 turns, otherwise its last 19 entries, the truncation at
routes.py line 190 having already dropped older turns), and the
persistent chat log is unchanged. -/
theorem chat_generation_failure (hist log : List Msg) (message e : String) :
    chatHandler hist log message (.error e)
      = (false,
         if 20 ≤ hist.length then hist.drop (hist.length - 19) else hist,
         log)
    ∧ (chatHandler hist log message (.error e)).2.1 <:+ hist := by
  have hmain : chatHandler hist log message (.error e)
      = (false,
         if 20 ≤ hist.length then hist.drop (hist.length - 19) else hist,
         log) := by
    simp only [chatHandler, chatWithRagOutcome]
    by_cases h : 20 ≤ hist.length
    · have h1 : 20 < (hist ++ [(⟨"user", message⟩ : Msg)]).length := by
        simp [List.length_append]; omega
      have h2 : (hist ++ [(⟨"user", message⟩ : Msg)]).length - 20 = hist.length - 19 := by
        simp only [List.length_append, List.length_cons, List.length_nil]; omega
      have h3 : hist.length - 19 ≤ hist.length := Nat.sub_le _ _
      rw [if_pos h1, h2, List.drop_append_of_le_length h3]
      simp [List.getLast?_concat, List.dropLast_concat, h]
    · have h1 : ¬ 20 < (hist ++ [(⟨"user", message⟩ : Msg)]).length := by
        simp [List.length_append]; omega
      rw [if_neg h1]
      simp [List.getLast?_concat, List.dropLast_concat, h]
  refine ⟨hmain, ?_⟩
  rw [hmain]
  by_cases h : 20 ≤ hist.length
  · simp only [if_pos h]
    exact List.drop_suffix _ _
  · simp only [if_neg h]
    exact List.suffix_rfl


/-! ## Claims C6, C7, C8 -/

/-- C6: the genuinely retrieved results are always a prefix of the merge
output (never removed or reordered); when the message is classified an
ambiguous follow-up AND fewer than 3 results were retrieved AND prior
chunk texts exist, the merge appends up to 2 prior chunks at the fixed
score 0.5 strictly after the retrieved results; when any of the three
conditions fails the result list is returned unchanged. -/
theorem continuity_merge_behavior (message : String) (lastChunks : List String)
    (cur : List (ChunkRec × ℚ)) :
    (cur <+: applyContextMerge message lastChunks cur)
    ∧ (isAmbiguousFollowup message = true → cur.length < 3 → lastChunks ≠ [] →
        applyContextMerge message lastChunks cur = cur ++ (lastChunks.take 2).map pseudoChunk
        ∧ ((applyContextMerge message lastChunks cur).drop cur.length).length ≤ 2
        ∧ ∀ p ∈ (applyContextMerge message lastChunks cur).drop cur.length, p.2 = mkRat 1 2)
    ∧ ((isAmbiguousFollowup message = false ∨ 3 ≤ cur.length ∨ lastChunks = []) →
        applyContextMerge message lastChunks cur = cur) := by
  refine ⟨?_, ?_, ?_⟩
  · rw [applyContextMerge]
    split_ifs with hgate
    · rw [mergeWithPreviousContext]
      split_ifs with hm
      · exact List.prefix_append _ _
      · exact List.prefix_rfl
    · exact List.prefix_rfl
  · intro hamb hlen hne
    have hgate : (isAmbiguousFollowup message && !lastChunks.isEmpty) = true := by
      simp [hamb, hne]
    have hmerge : applyContextMerge message lastChunks cur
        = cur ++ (lastChunks.take 2).map pseudoChunk := by
      rw [applyContextMerge, if_pos hgate, mergeWithPreviousContext, if_pos ⟨hlen, hne⟩]
    refine ⟨hmerge, ?_, ?_⟩
    · rw [hmerge, List.drop_left]
      simp only [List.length_map, List.length_take]
      exact le_trans (min_le_left _ _) (le_refl 2)
    · intro p hp
      rw [hmerge, List.drop_left] at hp
      rcases List.mem_map.mp hp with ⟨t, _, rfl⟩
      rfl
  · intro hfail
    rw [applyContextMerge]
    rcases hfail with hf | hf | hf
    · rw [if_neg (by simp [hf])]
    · split_ifs with hgate
      · rw [mergeWithPreviousContext, if_neg (by omega)]
      · rfl
    · rw [if_neg (by simp [hf])]

/-- Witness for C6 at the spec's continuity scenario: message "tell me
more", prior chunks ["A", "B"], no fresh retrieval hits. -/
theorem continuity_merge_behavior_witness :
    applyContextMerge "tell me more" ["A", "B"] []
      = [(⟨1, 1, "A"⟩, mkRat 1 2), (⟨1, 1, "B"⟩, mkRat 1 2)] :=
  (((continuity_merge_behavior "tell me more" ["A", "B"] []).2.1
      (by decide) (by decide) (by decide)).1).trans (by decide)

/-- The claim's phrasing of ambiguous-follow-up classification, stated
independently of the code: trimmed length below 15, or some fixed
elliptical phrase occurs case-insensitively as a substring. -/
def specAmbiguousFollowup (message : String) : Prop :=
  (lowerStrip message).length < 15
  ∨ ∃ p ∈ ambiguousPatterns, p.data <:+: lowerStrip message

/-- C7: a message is classified an ambiguous follow-up iff its trimmed
length is below 15 characters or it contains one of the fixed phrases
(case-insensitive substring); in particular "tell me more" → true,
"what is the torque spec for a 2019 Civic" → false, "ok" → true. -/
theorem ambiguous_followup_charn :
    (∀ m, isAmbiguousFollowup m = true ↔ specAmbiguousFollowup m)
    ∧ isAmbiguousFollowup "tell me more" = true
    ∧ isAmbiguousFollowup "what is the torque spec for a 2019 Civic" = false
    ∧ isAmbiguousFollowup "ok" = true := by
  refine ⟨fun m => ?_, by decide, by decide, by decide⟩
  simp [isAmbiguousFollowup, specAmbiguousFollowup, List.any_eq_true, decide_eq_true_iff]

/-- C8: with fewer than 2 history entries (including the empty history)
query expansion returns the original message unchanged. -/
theorem query_expansion_short_history (m : String) (hist : List Msg)
    (h : hist.length < 2) : buildEnhancedSearchQuery m hist = m := by
  rw [buildEnhancedSearchQuery, if_pos h]

/-- Witness for C8 at the spec's example: empty history, message
"brakes". -/
theorem query_expansion_short_history_witness :
    buildEnhancedSearchQuery "brakes" [] = "brakes" :=
  query_expansion_short_history "brakes" [] (by decide)


/-! ## Claim C10 -/

theorem merge_drop (cur : List (ChunkRec × ℚ)) (prev : List String) :
    (mergeWithPreviousContext cur prev).drop cur.length
      = if cur.length < 3 ∧ prev ≠ [] then (prev.take 2).map pseudoChunk else [] := by
  rw [mergeWithPreviousContext]
  split_ifs with h
  · rw [List.drop_left]
  · exact List.drop_length cur

theorem extractGo_pseudo_skip (docs : Nat → Option DocumentRec) (seen : List Nat)
    (hseen : 1 ∈ seen) :
    ∀ l : List String, extractDocumentInfoGo docs (l.map pseudoChunk) seen = [] := by
  intro l
  induction l with
  | nil => rfl
  | cons t rest ih =>
    simp only [List.map_cons, extractDocumentInfoGo, pseudoChunk]
    rw [if_pos hseen]
    exact ih

theorem extractGo_pseudo_none (docs : Nat → Option DocumentRec)
    (hnone : docs 1 = none) :
    ∀ (l : List String) (seen : List Nat),
      extractDocumentInfoGo docs (l.map pseudoChunk) seen = [] := by
  intro l
  induction l with
  | nil => intro seen; rfl
  | cons t rest ih =>
    intro seen
    simp only [List.map_cons, extractDocumentInfoGo, pseudoChunk]
    by_cases h : (1 : Nat) ∈ seen
    · rw [if_pos h]; exact ih seen
    · rw [if_neg h, hnone]
      exact ih seen

theorem buildContextEntries_pseudo_none (docs : Nat → Option DocumentRec)
    (hnone : docs 1 = none) (l : List String) :
    buildContextEntries docs (l.map pseudoChunk) = [] := by
  induction l with
  | nil => rfl
  | cons t rest ih =>
    simp only [List.map_cons, buildContextEntries, List.filterMap_cons, pseudoChunk, hnone,
      Option.map_none]
    exact ih

theorem buildContextEntries_pseudo_some (docs : Nat → Option DocumentRec)
    (d : DocumentRec) (hsome : docs 1 = some d) (l : List String) :
    buildContextEntries docs (l.map pseudoChunk)
      = (l.map pseudoChunk).map (fun p => (d.original_filename, 1, p.1.text_content, p.2)) := by
  induction l with
  | nil => rfl
  | cons t rest ih =>
    simp only [List.map_cons, buildContextEntries, List.filterMap_cons, pseudoChunk, hsome,
      Option.map_some]
    exact congrArg (List.cons _) ih

/-- C10: every chunk injected by the continuity merge carries the constant
fields `document_id = 1` and `page_number = 1` (and score 0.5) regardless
of the text's actual origin; consequently context assembly and
referenced-document extraction attribute such chunks to the document with
id 1 — its display name, at relevance 0.5 — when one exists, and silently
skip them when no document with id 1 exists. -/
theorem carryover_attribution (cur : List (ChunkRec × ℚ)) (prev : List String)
    (docs : Nat → Option DocumentRec) :
    (∀ p ∈ (mergeWithPreviousContext cur prev).drop cur.length,
        p.1.document_id = 1 ∧ p.1.page_number = 1 ∧ p.2 = mkRat 1 2)
    ∧ (docs 1 = none →
        buildContextEntries docs ((mergeWithPreviousContext cur prev).drop cur.length) = []
        ∧ extractDocumentInfo docs ((mergeWithPreviousContext cur prev).drop cur.length) = [])
    ∧ (∀ d, docs 1 = some d →
        buildContextEntries docs ((mergeWithPreviousContext cur prev).drop cur.length)
          = ((mergeWithPreviousContext cur prev).drop cur.length).map
              (fun p => (d.original_filename, 1, p.1.text_content, p.2))
        ∧ extractDocumentInfo docs ((mergeWithPreviousContext cur prev).drop cur.length)
          = if (mergeWithPreviousContext cur prev).drop cur.length = [] then []
            else [(d.id, d.original_filename, mkRat 1 2)]) := by
  rw [merge_drop]
  by_cases hc : cur.length < 3 ∧ prev ≠ []
  · rw [if_pos hc]
    refine ⟨?_, ?_, ?_⟩
    · intro p hp
      rcases List.mem_map.mp hp with ⟨t, _, rfl⟩
      exact ⟨rfl, rfl, rfl⟩
    · intro hnone
      exact ⟨buildContextEntries_pseudo_none docs hnone _,
        extractGo_pseudo_none docs hnone _ _⟩
    · intro d hsome
      refine ⟨buildContextEntries_pseudo_some docs d hsome _, ?_⟩
      cases hl : prev.take 2 with
      | nil => rfl
      | cons t rest =>
        have hne : (t :: rest).map pseudoChunk ≠ [] := by simp
        rw [if_neg hne]
        simp only [List.map_cons, extractDocumentInfo, extractDocumentInfoGo, pseudoChunk]
        rw [if_neg (by simp), hsome]
        rw [extractGo_pseudo_skip docs _ (List.mem_singleton.mpr rfl)]
  · rw [if_neg hc]
    refine ⟨?_, fun _ => ⟨rfl, rfl⟩, fun d _ => ⟨rfl, rfl⟩⟩
    intro p hp
    simp at hp

def docsAbsent : Nat → Option DocumentRec := fun _ => none

def docsManual : Nat → Option DocumentRec :=
  fun n => if n = 1 then some ⟨1, "manual.pdf"⟩ else none

/-- Witness for C10: two carried-over chunks ["A", "B"] on an empty
retrieval, once against a store with no document 1 (skipped) and once
against a store whose document 1 is "manual.pdf" (attributed at 0.5). -/
theorem carryover_attribution_witness :
    extractDocumentInfo docsAbsent ((mergeWithPreviousContext [] ["A", "B"]).drop 0) = []
    ∧ extractDocumentInfo docsManual ((mergeWithPreviousContext [] ["A", "B"]).drop 0)
        = [(1, "manual.pdf", mkRat 1 2)] :=
  ⟨((carryover_attribution [] ["A", "B"] docsAbsent).2.1 rfl).2,
   (((carryover_attribution [] ["A", "B"] docsManual).2.2 ⟨1, "manual.pdf"⟩ rfl).2).trans
     (by decide)⟩

end PilotRag
